import Mathlib

/-!
Verification development for the "Kust Bots" chat-support backend
(`src/main.py`): the streaming tool-call interception protocol.

Modelling conventions:
* Python `str` values are modelled as `List Char`.
* The upstream SSE transport (`requests.post`, `iter_lines`, the
  `data:` framing and `choices[0].delta.content` extraction) is
  abstracted to the sequence of non-framing text deltas it produces,
  plus how the stream ends (a `[DONE]` frame, plain iterator
  exhaustion, or an exception raised mid-stream).  Every claim under
  study speaks at the level of these deltas.
* `search_kb` and `fetch_telegram_history` are pure-value parameters
  (`sk`, `tg`) of the stream processor: no claim depends on their
  output beyond it being some string.
* Stateful Python (the `SESSIONS` dict, list aliasing and `append`)
  is modelled by explicit value passing; see `chatStream`.
-/

namespace KustSupport

/-- The character `{` (written with an escape for tooling reasons). -/
def braceChar : Char := '\x7b'

/-- The character `}`. -/
def closeBraceChar : Char := '\x7d'

/-- Scanner state of `_find_complete_json` (src/main.py:431-433):
brace depth, the in-string-literal flag, and the escape flag. -/
structure ScanSt where
  depth : Int
  inStr : Bool
  escape : Bool
deriving Repr, DecidableEq

/-- Python's test `ch == '\\\\'` from src/main.py:439.  In Python source
the literal `'\\\\'` denotes the two-character string consisting of two
backslashes, while `ch` is a single character (a length-one string), so
the comparison is between a length-one and a length-two character
sequence.  We embed it verbatim as that sequence comparison. -/
def chIsPyQuadBackslash (ch : Char) : Bool :=
  decide ([ch] = ['\\', '\\'])

/-- One iteration of the scanning loop of `_find_complete_json`
(src/main.py:434-451) on character `ch`: returns the updated state and
whether this character closed the top-level object (`depth == 0` after
the decrement, i.e. the point where Python returns). -/
def scanStep (st : ScanSt) (ch : Char) : ScanSt × Bool :=
  if st.inStr then
    if st.escape then (⟨st.depth, st.inStr, false⟩, false)
    else if chIsPyQuadBackslash ch then (⟨st.depth, st.inStr, true⟩, false)
    else if ch = '"' then (⟨st.depth, false, st.escape⟩, false)
    else (st, false)
  else
    if ch = '"' then (⟨st.depth, true, st.escape⟩, false)
    else if ch = braceChar then (⟨st.depth + 1, st.inStr, st.escape⟩, false)
    else if ch = closeBraceChar then (⟨st.depth - 1, st.inStr, st.escape⟩, st.depth - 1 = 0)
    else (st, false)

/-- The scanning loop `for i in range(start, len(s))` of
`_find_complete_json`: scan the remaining characters, threading the
state, and return the (absolute) index at which the top-level object
closes, if any. -/
def findFrom : List Char → Nat → ScanSt → Option Nat
  | [], _, _ => none
  | c :: cs, i, st =>
    if (scanStep st c).2 then some i
    else findFrom cs (i + 1) (scanStep st c).1

/-- `_find_complete_json` (src/main.py:423-452): find the first complete
top-level JSON object in `s`; return `(json_str, start, end)` with
`json_str = s[start:end]`, or `none`.  `s.find('{')` is modelled by
`List.findIdx?`. -/
def findCompleteJson (s : List Char) : Option (List Char × Nat × Nat) :=
  match s.findIdx? (fun c => c = braceChar) with
  | none => none
  | some start =>
    match findFrom (s.drop start) start ⟨0, false, false⟩ with
    | none => none
    | some i => some ((s.drop start).take (i + 1 - start), start, i + 1)

/-! ### A model of `json.loads` on tool-call payloads

The handler feeds detected complete-JSON text to `json.loads` and reads
the `tool` / `query` fields of the resulting dict
(src/main.py:514-523).  We model the fragment of JSON the tool-call
protocol uses: flat objects with string keys and string values.  Any
other document is mapped to a parse failure; every concrete string this
development evaluates the parser on is either inside this fragment or
fails to parse in Python as well. -/

/-- JSON whitespace characters. -/
def isJsonWs (c : Char) : Bool :=
  c = ' ' || c = '\t' || c = '\n' || c = '\r'

/-- Drop leading JSON whitespace. -/
def skipJsonWs (s : List Char) : List Char :=
  s.dropWhile isJsonWs

/-- The two-character JSON escape sequences, as a table from the
character after the backslash to the decoded character (`\uXXXX` is
not modelled and is mapped to failure; no input under study uses it). -/
def escapeTable : List (Char × Char) :=
  [('"', '"'), ('\\', '\\'), ('/', '/'), ('n', '\n'), ('t', '\t'), ('r', '\r'),
   ('b', Char.ofNat 8), ('f', Char.ofNat 12)]

def unescapeChar (c : Char) : Option Char :=
  escapeTable.lookup c

/-- Parse the body of a JSON string (after the opening quote) up to its
closing quote; returns the decoded content and the remaining input. -/
def jsonStringBody : List Char → Option (List Char × List Char)
  | [] => none
  | '\\' :: c :: rest =>
    match unescapeChar c with
    | none => none
    | some u =>
      match jsonStringBody rest with
      | none => none
      | some (s, r) => some (u :: s, r)
  | '"' :: rest => some ([], rest)
  | c :: rest =>
    match jsonStringBody rest with
    | none => none
    | some (s, r) => some (c :: s, r)

/-- Parse the members of a JSON object after the opening brace (at
least one member), returning the key/value pairs and the input
remaining after the closing brace.  Fueled by input length. -/
def parseMembers : Nat → List Char → Option (List (List Char × List Char) × List Char)
  | 0, _ => none
  | fuel + 1, s =>
    match skipJsonWs s with
    | '"' :: keyRest =>
      match jsonStringBody keyRest with
      | none => none
      | some (key, afterKey) =>
        match skipJsonWs afterKey with
        | ':' :: afterColon =>
          match skipJsonWs afterColon with
          | '"' :: valRest =>
            match jsonStringBody valRest with
            | none => none
            | some (val, afterVal) =>
              match skipJsonWs afterVal with
              | ',' :: more =>
                match parseMembers fuel more with
                | none => none
                | some (pairs, r) => some ((key, val) :: pairs, r)
              | c :: r =>
                if c = closeBraceChar then some ([(key, val)], r) else none
              | [] => none
          | _ => none
        | _ => none
    | _ => none

/-- Model of `json.loads` restricted to flat string-to-string objects
(the tool-call payload shape): the whole input must be consumed up to
trailing whitespace. -/
def jsonLoads (s : List Char) : Option (List (List Char × List Char)) :=
  match skipJsonWs s with
  | c :: rest =>
    if c = braceChar then
      match skipJsonWs rest with
      | d :: r =>
        if d = closeBraceChar then
          if skipJsonWs r = [] then some [] else none
        else
          match parseMembers (s.length + 1) rest with
          | none => none
          | some (pairs, r2) => if skipJsonWs r2 = [] then some pairs else none
      | [] => none
    else none
  | [] => none

/-- Python `dict.get` on a parsed object (later duplicate keys win, as
in Python's `json.loads`). -/
def dictGet (obj : List (List Char × List Char)) (k : List Char) : Option (List Char) :=
  match obj with
  | [] => none
  | (key, v) :: rest =>
    match dictGet rest k with
    | some r => some r
    | none => if key = k then some v else none

/-! ### Events, messages, and the upstream interface -/

/-- A stream event emitted toward the browser.  Each constructor is one
of the `data: {"type": ...}` frames yielded in src/main.py; constant
payload fields (`tool_end`'s `result: "Done"`) are dropped. -/
inductive Event where
  | ping
  | token (content : List Char)
  | toolStart (tool input : Option (List Char))
  | toolEnd
  | error (content : List Char)
  | done
deriving Repr, DecidableEq

/-- A chat message, `{"role": ..., "content": ...}`. -/
structure Message where
  role : List Char
  content : List Char
deriving Repr, DecidableEq

/-- How the upstream SSE body ends: a `data: [DONE]` frame
(src/main.py:476), plain exhaustion of `iter_lines` without `[DONE]`,
or an exception raised while reading (network error / timeout), which
jumps to the handler at src/main.py:579. -/
inductive StreamEnd where
  | doneMark
  | exhausted
  | interrupted
deriving Repr, DecidableEq

/-- The upstream response to one `requests.post` call: a non-200
status, or a streamed body abstracted to its content deltas and its
ending.  A connection failure before any data is `.ok [] .interrupted`. -/
inductive Upstream where
  | httpError (status : Nat)
  | ok (deltas : List (List Char)) (ending : StreamEnd)

/-- Result of running the (recursive) stream handler with a given
recursion budget: `none` when the budget is exhausted before the
computation finishes (the Python code has no such budget and would just
recurse deeper), otherwise the emitted events together with the list of
conversations posted upstream, in call order. -/
abbrev Run := Option (List Event × List (List Message))

def roleSystem : List Char := "system".data
def roleUser : List Char := "user".data
def roleAssistant : List Char := "assistant".data
def keyTool : List Char := "tool".data
def keyQuery : List Char := "query".data
def toolResultTag : List Char := "TOOL RESULT: ".data
def toolNotFoundMsg : List Char := "Tool not found.".data
def connectionInterruptedMsg : List Char := "Connection interrupted.".data
def apiErrorHead : List Char := "API Error ".data
def toolLoopExceededMsg : List Char := "tool loop exceeded".data
def nameGetInfo : List Char := "get_info".data
def nameGetInfoAlt : List Char := "getinfo".data
def nameTgHist : List Char := "get_telegram_history".data
def nameTgUpd : List Char := "get_telegram_updates".data
def nameTgShort : List Char := "tg_history".data
def nameTgLong : List Char := "telegram_history".data

/-- The `error` content for a non-200 upstream status,
`f'API Error {r.status_code}'` (src/main.py:465). -/
def apiErrorMsg (status : Nat) : List Char :=
  apiErrorHead ++ (toString status).data

/-- Tool dispatch (src/main.py:530-540): lower-case the tool name
(`(tool_name or "").lower() if tool_name else ""`), run `search_kb`
for `get_info`/`getinfo`, `fetch_telegram_history` for the telegram
aliases, and answer `"Tool not found."` otherwise.  `sk` and `tg`
stand for the two tool implementations. -/
def runTool (sk : Option (List Char) → List Char) (tg : List Char)
    (toolName query : Option (List Char)) : List Char :=
  let lower := (toolName.getD []).map Char.toLower
  if lower = nameGetInfo ∨ lower = nameGetInfoAlt then sk query
  else if lower = nameTgHist ∨ lower = nameTgUpd ∨ lower = nameTgShort ∨ lower = nameTgLong then
    tg
  else toolNotFoundMsg

/-- One turn's delta-processing loop of `call_inference_stream`
(src/main.py:467-577), for a fixed conversation `messages`: thread the
accumulation buffer over the remaining deltas.

* Empty deltas are skipped (`if not delta: continue`).
* After appending a delta, a complete JSON object found in the buffer
  is split out; text before it is flushed as a `token`; on parse
  failure the JSON text itself is flushed as a `token`; on parse
  success the tool path runs unconditionally (`tool_start`, tool
  execution, `tool_end`), the handler recurses on the extended
  conversation via `next`, and then continues with the text after the
  object as the new buffer.
* With no complete object, a buffer containing `{` is held back unless
  it exceeds 2048 characters, in which case it is flushed whole; a
  buffer with no `{` is flushed immediately.
* At stream end, `[DONE]` and iterator exhaustion flush the residual
  buffer; an exception yields one `error` event and loses the buffer. -/
def processTurn (sk : Option (List Char) → List Char) (tg : List Char)
    (next : List Message → Run) (messages : List Message) :
    List Char → List (List Char) → StreamEnd → Run
  | buffer, [], ending =>
    match ending with
    | .interrupted => some ([Event.error connectionInterruptedMsg], [])
    | _ => some ((if buffer = [] then [] else [Event.token buffer]), [])
  | buffer, delta :: rest, ending =>
    if delta = [] then processTurn sk tg next messages buffer rest ending
    else
      let buf := buffer ++ delta
      match findCompleteJson buf with
      | some (js, sidx, eidx) =>
        let before := buf.take sidx
        let after := buf.drop eidx
        let beforeEvs := if before = [] then [] else [Event.token before]
        match jsonLoads js with
        | none =>
          match processTurn sk tg next messages after rest ending with
          | none => none
          | some (evs, tr) => some (beforeEvs ++ Event.token js :: evs, tr)
        | some obj =>
          let toolName := dictGet obj keyTool
          let query := dictGet obj keyQuery
          let toolResult := runTool sk tg toolName query
          let newMessages := messages ++
            [⟨roleAssistant, js⟩, ⟨roleUser, toolResultTag ++ toolResult⟩]
          match next newMessages with
          | none => none
          | some (subEvs, subTr) =>
            match processTurn sk tg next messages after rest ending with
            | none => none
            | some (evs, tr) =>
              some (beforeEvs ++ Event.toolStart toolName query :: Event.toolEnd ::
                (subEvs ++ evs), subTr ++ tr)
      | none =>
        if braceChar ∈ buf then
          if 2048 < buf.length then
            match processTurn sk tg next messages [] rest ending with
            | none => none
            | some (evs, tr) => some (Event.token buf :: evs, tr)
          else processTurn sk tg next messages buf rest ending
        else
          match processTurn sk tg next messages [] rest ending with
          | none => none
          | some (evs, tr) => some (Event.token buf :: evs, tr)

/-- `call_inference_stream` (src/main.py:454-581), with an explicit
recursion budget standing for the unbounded Python generator
recursion: post the conversation upstream (`model`), surface a non-200
status as a single `error` event, and otherwise run the turn's delta
loop, recursing at one budget less.  Budget 0 means the run is still
recursing deeper than the budget allows (`none`). -/
def callInferenceStream (sk : Option (List Char) → List Char) (tg : List Char)
    (model : List Message → Upstream) : Nat → List Message → Run
  | 0 => fun _ => none
  | fuel + 1 => fun messages =>
    match model messages with
    | .httpError status => some ([Event.error (apiErrorMsg status)], [messages])
    | .ok deltas ending =>
      match processTurn sk tg (callInferenceStream sk tg model fuel) messages [] deltas ending with
      | none => none
      | some (evs, trace) => some (evs, messages :: trace)

/-! ### Sessions and the `/chat/stream` route -/

/-- `SYSTEM_PROMPT` (src/main.py:202-220). -/
def SYSTEM_PROMPT : List Char :=
  ("\nYou are KustX, the official AI support for Kust Bots.\n\n**IDENTITY:**\n- Name: KustX\n- Owner: @KustDev\n- Official Channel: @kustbots\n\n**BEHAVIOR:**\n1. **Natural & Helpful:** Speak naturally. Be professional but not robotic. You don\x27t need to be extremely brief, but don\x27t ramble.\n2. **Formatting:** IMPORTANT: When listing features, plans, or steps, ALWAYS use Markdown bullet points with each item on a NEW LINE.\n3. **Guardrails:** If asked about coding general apps, essays, math, or competitors, politely decline: \"I specialize in Kust Bots services only.\"\n4. **Tool Use:** Use the \x60get_info\x60 tool to fetch data. Output ONLY JSON for tools.\n   - Example: \x7b\"tool\": \"get_info\", \"query\": \"pricing\"\x7d\n   - Do NOT say \"Let me check\" before the JSON. Just output the JSON.\n\n**DATA ACCESS:**\n- If the user asks generally about \"services\", \"products\", or \"what do you offer\", use the \x60get_info\x60 tool with the query \"services\".\n").data

/-- The seed message `{"role": "system", "content": SYSTEM_PROMPT}`. -/
def systemMessage : Message := ⟨roleSystem, SYSTEM_PROMPT⟩

/-- `get_session` (src/main.py:228-231) for one session id: the stored
history if present, else the freshly seeded one.  `none` models the id
being absent from `SESSIONS` (including right after `/api/reset`). -/
def getSession : Option (List Message) → List Message
  | none => [systemMessage]
  | some h => h

/-- The history right after `history.append({"role": "user", ...})`
(src/main.py:599).  In Python this `append` mutates the stored
`SESSIONS` entry. -/
def historyWithUser (store : Option (List Message)) (userMsg : List Char) : List Message :=
  getSession store ++ [⟨roleUser, userMsg⟩]

/-- The context trimming of src/main.py:604-605: when the history
exceeds 9 entries, rebind the request-local variable to the fresh list
`[history[0]] + history[-8:]`.  (`h.take 1` is `[h[0]]`; the history is
never empty there, being seeded with the system message.) -/
def trimmedHistory (h : List Message) : List Message :=
  if 9 < h.length then h.take 1 ++ h.drop (h.length - 8) else h

/-- `full_text` accumulation in `generate` (src/main.py:610-616): the
concatenated contents of the `token` events. -/
def fullTextOf : List Event → List Char
  | [] => []
  | Event.token c :: rest => c ++ fullTextOf rest
  | _ :: rest => fullTextOf rest

/-- Python `str.strip()` whitespace set. -/
def isPySpace (c : Char) : Bool :=
  c = ' ' || c = '\t' || c = '\n' || c = '\r' || c = '\x0b' || c = '\x0c'

/-- Python `str.strip()`. -/
def pyStrip (s : List Char) : List Char :=
  ((s.dropWhile isPySpace).reverse.dropWhile isPySpace).reverse

/-- `full_text.strip().startswith("{")` (src/main.py:619). -/
def stripStartsWithBrace (s : List Char) : Bool :=
  match pyStrip s with
  | c :: _ => c = braceChar
  | [] => false

/-- Observable outcome of one `/chat/stream` request for a session:
the SSE events sent to the client, the `SESSIONS` entry after the
request, the final value of the request-local `history` binding, the
conversation actually posted upstream, and the upstream call trace. -/
structure ChatOutcome where
  events : List Event
  stored : List Message
  finalLocal : List Message
  sent : List Message
  trace : List (List Message)
deriving Repr, DecidableEq

/-- The request-local `history` after the tail of `generate`
(src/main.py:619-620): the assistant text is appended when `full_text`
is non-empty and does not start with `{` after stripping. -/
def finalLocalOf (store : Option (List Message)) (userMsg : List Char)
    (evs : List Event) : List Message :=
  if fullTextOf evs ≠ [] ∧ stripStartsWithBrace (fullTextOf evs) = false then
    trimmedHistory (historyWithUser store userMsg) ++ [⟨roleAssistant, fullTextOf evs⟩]
  else trimmedHistory (historyWithUser store userMsg)

/-- The observable outcome of the request, given the turn's events and
upstream-call trace.  The stored `SESSIONS` entry: when trimming
occurred (history exceeded 9 entries) the request-local `history` was
rebound to a fresh list, so the store keeps only the user-message
append; otherwise the request-local list is the stored list and the
assistant append reaches the store too. -/
def chatOutcomeOf (store : Option (List Message)) (userMsg : List Char)
    (evs : List Event) (trace : List (List Message)) : ChatOutcome :=
  ⟨Event.ping :: (evs ++ [Event.done]),
   if 9 < (historyWithUser store userMsg).length then historyWithUser store userMsg
   else finalLocalOf store userMsg evs,
   finalLocalOf store userMsg evs,
   trimmedHistory (historyWithUser store userMsg),
   trace⟩

/-- `chat_stream` (src/main.py:590-623) for one session, given the
current `SESSIONS` entry (or `none`): append the user message (a
mutation of the stored list), maybe trim into a fresh request-local
list, stream the turn with the (possibly trimmed) history, and build
the outcome. -/
def chatStream (sk : Option (List Char) → List Char) (tg : List Char)
    (model : List Message → Upstream) (fuel : Nat)
    (store : Option (List Message)) (userMsg : List Char) : Option ChatOutcome :=
  match callInferenceStream sk tg model fuel (trimmedHistory (historyWithUser store userMsg)) with
  | none => none
  | some (evs, trace) => some (chatOutcomeOf store userMsg evs trace)

/-- The buffer-accumulation discipline of `call_inference_stream`
(src/main.py:500-504) in isolation: append each arriving delta to the
buffer and rescan the whole buffer, reporting the first complete-JSON
detection. -/
def detectAccum : List Char → List (List Char) → Option (List Char × Nat × Nat)
  | _, [] => none
  | buffer, c :: cs =>
    match findCompleteJson (buffer ++ c) with
    | some r => some r
    | none => detectAccum (buffer ++ c) cs

def chunkA : List Char := "\x7b\"to".data
def chunkB : List Char := "ol\":\"get_".data
def chunkC : List Char := "info\",\"query\":\"x\"\x7d".data

/-- The well-formed tool-call payload
`{"tool":"get_info","query":"x"}` as one delta. -/
def toolCallDelta : List Char :=
  "\x7b\"tool\":\"get_info\",\"query\":\"x\"\x7d".data

def queryX : List Char := "x".data

/-- An upstream model that answers every conversation with the same
tool call and never terminal text. -/
def alwaysToolModel : List Message → Upstream :=
  fun _ => Upstream.ok [toolCallDelta] StreamEnd.doneMark

/-- Concrete stand-ins for the two tool implementations, used when
claims are evaluated at concrete inputs. -/
def skStub : Option (List Char) → List Char := fun _ => "KB".data

def tgStub : List Char := "TG".data

/-! ### Concrete scenario material -/

def nextStub : List Message → Run := fun _ => none

def hiMsg : List Char := "hi".data

def helloText : List Char := "Hello".data

def modelSilent : List Message → Upstream := fun _ => Upstream.ok [] StreamEnd.doneMark

/-- Upstream that streams `Hello` and then dies mid-stream. -/
def modelPartialFail : List Message → Upstream :=
  fun ms =>
    if ms.length = 2 then Upstream.ok [helloText] StreamEnd.interrupted
    else Upstream.ok [] StreamEnd.doneMark

def fillerMsg : Message := ⟨roleUser, "m".data⟩

/-- A stored session of 9 entries (system + 8): the next user append
pushes it over the trimming threshold. -/
def storeW : List Message := systemMessage :: List.replicate 8 fillerMsg

def modelHello : List Message → Upstream :=
  fun _ => Upstream.ok [helloText] StreamEnd.doneMark

def plainDeltas : List (List Char) := ["We ".data, [], "offer plans.".data]

def modelPlain : List Message → Upstream :=
  fun _ => Upstream.ok plainDeltas StreamEnd.doneMark

/-- An over-guard-size delta: `{` followed by 2060 letters, no close. -/
def bigDelta : List Char := braceChar :: List.replicate 2060 'a'

def flushBuf : List Char := "x".data

/-- The escape-splitting tool call `{"tool":"get_info","query":"\"}"}`
(its `query` value is the two characters `"` and `}`). -/
def escToolCallDelta : List Char :=
  "\x7b\"tool\":\"get_info\",\"query\":\"\\\"\x7d\"\x7d".data

/-- What the scanner actually detects on that input: the prefix cut at
the escaped quote (not valid JSON). -/
def escLeakA : List Char :=
  "\x7b\"tool\":\"get_info\",\"query\":\"\\\"\x7d".data

/-- The remainder after the bogus detection. -/
def escLeakB : List Char := "\"\x7d".data

def modelEscapedTool : List Message → Upstream :=
  fun _ => Upstream.ok [escToolCallDelta] StreamEnd.doneMark

def isToolEvent : Event → Bool
  | Event.toolStart _ _ => true
  | Event.toolEnd => true
  | _ => false

def isTokenEvent : Event → Bool
  | Event.token _ => true
  | _ => false

def nopeToolDelta : List Char := "\x7b\"tool\":\"nope\",\"query\":\"x\"\x7d".data

def nameNope : List Char := "nope".data

def okText : List Char := "ok".data

def modelUnknownTool : List Message → Upstream :=
  fun ms =>
    if ms.length = 1 then Upstream.ok [nopeToolDelta] StreamEnd.doneMark
    else Upstream.ok [okText] StreamEnd.doneMark

def braceFooDelta : List Char := "\x7bfoo\x7d".data

def trailDelta : List Char := "\x7b\"tool\":\"get_info\",\"query\":\"x\"\x7d trailing".data

def trailText : List Char := " trailing".data

def replyText : List Char := "Reply".data

def nextReply : List Message → Run := fun _ => some ([Event.token replyText], [])

def modelTrailing : List Message → Upstream :=
  fun ms =>
    if ms.length = 1 then Upstream.ok [trailDelta] StreamEnd.doneMark
    else Upstream.ok [replyText] StreamEnd.doneMark


/-! ### Scanner lemmas: left-to-right determinism of `_find_complete_json` -/

/-- The scanning loop's verdict on a prefix is unchanged by appending
more input. -/
theorem findFrom_append_some : ∀ {l : List Char} (t : List Char) {i : Nat} {st : ScanSt}
    {r : Nat}, findFrom l i st = some r → findFrom (l ++ t) i st = some r := by
  intro l
  induction l with
  | nil => intro t i st r h; simp [findFrom] at h
  | cons c cs ih =>
    intro t i st r h
    rw [List.cons_append]
    rw [findFrom] at h ⊢
    cases hc : (scanStep st c).2 with
    | true => simpa [hc] using h
    | false =>
      rw [if_neg (by simp [hc])] at h ⊢
      exact ih t h

/-- The index returned by the scanning loop lies inside the scanned
segment. -/
theorem findFrom_some_lt : ∀ {l : List Char} {i : Nat} {st : ScanSt} {r : Nat},
    findFrom l i st = some r → i ≤ r ∧ r < i + l.length := by
  intro l
  induction l with
  | nil => intro i st r h; simp [findFrom] at h
  | cons c cs ih =>
    intro i st r h
    rw [findFrom] at h
    cases hc : (scanStep st c).2 with
    | true =>
      rw [if_pos (by simp [hc])] at h
      obtain rfl : i = r := Option.some.inj h
      simp
    | false =>
      rw [if_neg (by simp [hc])] at h
      have := ih h
      constructor
      · omega
      · simpa [Nat.add_comm, Nat.add_assoc, Nat.add_left_comm] using this.2

/-- `_find_complete_json` is monotone under extension of its input: a
detection in a prefix is the detection in any extension.  This is what
makes detection over an accumulated buffer chunking-invariant. -/
theorem findCompleteJson_append_some {s : List Char} (t : List Char)
    {r : List Char × Nat × Nat} (h : findCompleteJson s = some r) :
    findCompleteJson (s ++ t) = some r := by
  unfold findCompleteJson at h ⊢
  cases hidx : s.findIdx? (fun c => c = braceChar) with
  | none => rw [hidx] at h; exact absurd h (by simp)
  | some start =>
    rw [hidx] at h
    have h1 : (match findFrom (s.drop start) start ⟨0, false, false⟩ with
        | none => none
        | some i => some ((s.drop start).take (i + 1 - start), start, i + 1)) = some r := h
    have hstart : start < s.length := by
      rcases List.findIdx?_eq_some_iff_getElem.mp hidx with ⟨hlt, -, -⟩
      exact hlt
    have hidx2 : (s ++ t).findIdx? (fun c => c = braceChar) = some start := by
      rw [List.findIdx?_append, hidx]
      rfl
    rw [hidx2]
    show (match findFrom ((s ++ t).drop start) start ⟨0, false, false⟩ with
      | none => none
      | some i => some (((s ++ t).drop start).take (i + 1 - start), start, i + 1)) = some r
    cases hff : findFrom (s.drop start) start ⟨0, false, false⟩ with
    | none => rw [hff] at h1; exact absurd h1 (by simp)
    | some i =>
      rw [hff] at h1
      have hdrop : (s ++ t).drop start = s.drop start ++ t :=
        List.drop_append_of_le_length (Nat.le_of_lt hstart)
      have hff2 : findFrom ((s ++ t).drop start) start ⟨0, false, false⟩ = some i := by
        rw [hdrop]
        exact findFrom_append_some t hff
      rw [hff2]
      show some (((s ++ t).drop start).take (i + 1 - start), start, i + 1) = some r
      have hbound : i + 1 - start ≤ (s.drop start).length :=
        by have := (findFrom_some_lt hff).2; omega
      have htake : ((s ++ t).drop start).take (i + 1 - start) =
          (s.drop start).take (i + 1 - start) := by
        rw [hdrop]
        exact List.take_append_of_le_length hbound
      rw [htake]
      exact h1

/-- A string with no `{` has no detection. -/
theorem findCompleteJson_eq_none_of_no_brace {s : List Char} (h : braceChar ∉ s) :
    findCompleteJson s = none := by
  have hidx : s.findIdx? (fun c => c = braceChar) = none := by
    rw [List.findIdx?_eq_none_iff]
    intro x hx
    simp only [decide_eq_false_iff_not]
    exact fun hxb => h (hxb ▸ hx)
  unfold findCompleteJson
  rw [hidx]

theorem detectAccum_eq_find : ∀ (chunks : List (List Char)) (buffer : List Char),
    findCompleteJson buffer = none →
    detectAccum buffer chunks = findCompleteJson (buffer ++ chunks.flatten) := by
  intro chunks
  induction chunks with
  | nil =>
    intro buffer hb
    simp [detectAccum, hb]
  | cons c cs ih =>
    intro buffer hb
    rw [detectAccum]
    cases hf : findCompleteJson (buffer ++ c) with
    | some r =>
      have : findCompleteJson ((buffer ++ c) ++ cs.flatten) = some r :=
        findCompleteJson_append_some cs.flatten hf
      rw [List.flatten_cons, ← List.append_assoc]
      exact this.symm
    | none =>
      rw [ih (buffer ++ c) hf, List.flatten_cons, List.append_assoc]

/-- C6: detection of a complete top-level JSON object is invariant
under chunking — driving the accumulated buffer through
`_find_complete_json` after each delta yields exactly the detection
that scanning the whole concatenated string in one delta yields; in
particular the spec's three-delta example equals its one-delta form. -/
theorem c6_detection_chunking_invariant :
    (∀ chunks : List (List Char), detectAccum [] chunks = findCompleteJson chunks.flatten) ∧
    detectAccum [] [chunkA, chunkB, chunkC] = detectAccum [] [chunkA ++ chunkB ++ chunkC] := by
  have main : ∀ chunks : List (List Char),
      detectAccum [] chunks = findCompleteJson chunks.flatten := by
    intro chunks
    have h := detectAccum_eq_find chunks [] rfl
    simpa using h
  refine ⟨main, ?_⟩
  rw [main, main]
  simp [List.append_assoc]

/-! ### Pass-through and flush behaviour of the delta loop -/

/-- A non-empty delta with no `{`, arriving on an empty buffer, is
flushed as one `token` event before any further processing. -/
theorem processTurn_token_step (sk : Option (List Char) → List Char) (tg : List Char)
    (next : List Message → Run) (messages : List Message)
    {d : List Char} (rest : List (List Char)) (ending : StreamEnd)
    (hd : d ≠ []) (hb : braceChar ∉ d) :
    processTurn sk tg next messages [] (d :: rest) ending =
      (processTurn sk tg next messages [] rest ending).map
        (fun p => (Event.token d :: p.1, p.2)) := by
  have hfind : findCompleteJson ([] ++ d) = none := by
    rw [List.nil_append]
    exact findCompleteJson_eq_none_of_no_brace hb
  simp only [processTurn, if_neg hd, hfind]
  rw [if_neg (by simpa using hb)]
  cases processTurn sk tg next messages [] rest ending with
  | none => rfl
  | some p => rfl

/-- Whole-stream pass-through: over brace-free deltas the loop emits
exactly one `token` per non-empty delta, in order, with empty buffer
throughout. -/
theorem processTurn_passthrough (sk : Option (List Char) → List Char) (tg : List Char)
    (next : List Message → Run) (messages : List Message) :
    ∀ (deltas : List (List Char)) (ending : StreamEnd),
    ending ≠ StreamEnd.interrupted →
    (∀ d ∈ deltas, braceChar ∉ d) →
    processTurn sk tg next messages [] deltas ending =
      some ((deltas.filter (fun d => !List.isEmpty d)).map Event.token, []) := by
  intro deltas
  induction deltas with
  | nil =>
    intro ending he _
    cases ending with
    | interrupted => exact absurd rfl he
    | doneMark => rfl
    | exhausted => rfl
  | cons d rest ih =>
    intro ending he hb
    by_cases hd : d = []
    · rw [processTurn, if_pos hd]
      rw [ih ending he (fun x hx => hb x (List.mem_cons_of_mem _ hx))]
      subst hd
      simp [List.filter_cons]
    · rw [processTurn_token_step sk tg next messages rest ending hd
        (hb d (List.mem_cons_self d rest))]
      rw [ih ending he (fun x hx => hb x (List.mem_cons_of_mem _ hx))]
      simp [List.filter_cons, hd]

/-- C5: for an upstream stream whose deltas contain no brace at all,
each non-empty delta is forwarded as one `token` event with exactly
that content, in order (empty deltas are skipped by
`if not delta: continue`); and per step, the token for a brace-free
delta is emitted before any continued processing, with the buffer left
empty — nothing is held back. -/
theorem c5_no_brace_passthrough (sk : Option (List Char) → List Char) (tg : List Char)
    (model : List Message → Upstream) (fuel : Nat) (messages : List Message)
    (deltas : List (List Char)) (ending : StreamEnd)
    (hfuel : fuel ≠ 0) (hmodel : model messages = Upstream.ok deltas ending)
    (hend : ending ≠ StreamEnd.interrupted)
    (hb : ∀ d ∈ deltas, braceChar ∉ d) :
    callInferenceStream sk tg model fuel messages =
      some ((deltas.filter (fun d => !List.isEmpty d)).map Event.token, [messages]) ∧
    (∀ (next : List Message → Run) (d : List Char) (rest : List (List Char)) (e : StreamEnd),
      d ≠ [] → braceChar ∉ d →
      processTurn sk tg next messages [] (d :: rest) e =
        (processTurn sk tg next messages [] rest e).map
          (fun p => (Event.token d :: p.1, p.2))) := by
  constructor
  · cases fuel with
    | zero => exact absurd rfl hfuel
    | succ f =>
      show (match model messages with
        | Upstream.httpError status => some ([Event.error (apiErrorMsg status)], [messages])
        | Upstream.ok ds ending =>
          match processTurn sk tg (callInferenceStream sk tg model f) messages [] ds ending with
          | none => none
          | some (evs, trace) => some (evs, messages :: trace)) =
        some ((deltas.filter (fun d => !List.isEmpty d)).map Event.token, [messages])
      rw [hmodel]
      show (match processTurn sk tg (callInferenceStream sk tg model f) messages [] deltas
          ending with
        | none => none
        | some (evs, trace) => some (evs, messages :: trace)) =
        some ((deltas.filter (fun d => !List.isEmpty d)).map Event.token, [messages])
      rw [processTurn_passthrough sk tg (callInferenceStream sk tg model f) messages deltas
        ending hend hb]
  · intro next d rest e hd hbd
    exact processTurn_token_step sk tg next messages rest e hd hbd

/-- C7: buffered text is never held forever.  If the buffer plus the
arriving delta contains a `{` but no complete JSON object and exceeds
2048 characters, it is flushed whole as one `token` and the buffer is
reset; and at stream end (`[DONE]` or iterator exhaustion) a non-empty
buffer is flushed verbatim as one `token`. -/
theorem c7_guard_and_end_flush (sk : Option (List Char) → List Char) (tg : List Char)
    (next : List Message → Run) (messages : List Message) :
    (∀ (buffer d : List Char) (rest : List (List Char)) (ending : StreamEnd),
      d ≠ [] → findCompleteJson (buffer ++ d) = none → braceChar ∈ buffer ++ d →
      2048 < (buffer ++ d).length →
      processTurn sk tg next messages buffer (d :: rest) ending =
        (processTurn sk tg next messages [] rest ending).map
          (fun p => (Event.token (buffer ++ d) :: p.1, p.2))) ∧
    (∀ buffer : List Char, buffer ≠ [] →
      processTurn sk tg next messages buffer [] StreamEnd.doneMark =
        some ([Event.token buffer], []) ∧
      processTurn sk tg next messages buffer [] StreamEnd.exhausted =
        some ([Event.token buffer], [])) := by
  constructor
  · intro buffer d rest ending hd hf hbr hlen
    simp only [processTurn, if_neg hd, hf]
    rw [if_pos hbr, if_pos hlen]
    cases processTurn sk tg next messages [] rest ending with
    | none => rfl
    | some p => rfl
  · intro buffer hb
    constructor
    · show (some ((if buffer = [] then [] else [Event.token buffer]),
        ([] : List (List Message))) : Run) = some ([Event.token buffer], [])
      rw [if_neg hb]
    · show (some ((if buffer = [] then [] else [Event.token buffer]),
        ([] : List (List Message))) : Run) = some ([Event.token buffer], [])
      rw [if_neg hb]

/-! ### Unbounded tool-call recursion (no max-turns guard) -/

/-- A turn whose only delta is the tool call: the handler runs the
tool path and its outcome is whatever the recursive follow-up turn
produces — if the follow-up is still recursing, so is this turn. -/
theorem processTurn_alwaysTool (sk : Option (List Char) → List Char) (tg : List Char)
    (next : List Message → Run) (messages : List Message)
    (hnext : ∀ ms, next ms = none) :
    processTurn sk tg next messages [] [toolCallDelta] StreamEnd.doneMark = none := by
  rw [show processTurn sk tg next messages [] [toolCallDelta] StreamEnd.doneMark =
      (match next (messages ++ [⟨roleAssistant, toolCallDelta⟩,
          ⟨roleUser, toolResultTag ++ sk (some queryX)⟩]) with
        | none => none
        | some (subEvs, subTr) =>
          some (Event.toolStart (some nameGetInfo) (some queryX) :: Event.toolEnd ::
            (subEvs ++ []), subTr ++ [])) from rfl]
  rw [hnext]

/-- Against `alwaysToolModel` the orchestrator completes for no
recursion budget: every turn starts a deeper one. -/
theorem callInferenceStream_alwaysTool_none (sk : Option (List Char) → List Char)
    (tg : List Char) :
    ∀ (fuel : Nat) (messages : List Message),
      callInferenceStream sk tg alwaysToolModel fuel messages = none := by
  intro fuel
  induction fuel with
  | zero => intro ms; rfl
  | succ f ih =>
    intro ms
    show (match processTurn sk tg (callInferenceStream sk tg alwaysToolModel f) ms []
        [toolCallDelta] StreamEnd.doneMark with
      | none => none
      | some (evs, trace) => some (evs, ms :: trace)) = none
    rw [processTurn_alwaysTool sk tg (callInferenceStream sk tg alwaysToolModel f) ms ih]

/-- The only `error` contents the code can produce are
`"Connection interrupted."` and `"API Error <status>"`; in particular
`"tool loop exceeded"` is never among them. -/
theorem apiErrorMsg_ne_toolLoop (st : Nat) : apiErrorMsg st ≠ toolLoopExceededMsg := by
  intro h
  have h2 : (apiErrorMsg st).head? = toolLoopExceededMsg.head? := by rw [h]
  have h3 : (apiErrorMsg st).head? = some 'A' := rfl
  have h4 : toolLoopExceededMsg.head? = some 't' := rfl
  rw [h3, h4] at h2
  exact absurd h2 (by decide)

/-- No event list produced by the delta loop contains
`error "tool loop exceeded"`, provided the recursive continuation
never produces one. -/
theorem processTurn_no_toolloop (sk : Option (List Char) → List Char) (tg : List Char)
    (next : List Message → Run)
    (hnext : ∀ ms evs tr, next ms = some (evs, tr) →
      Event.error toolLoopExceededMsg ∉ evs)
    (messages : List Message) :
    ∀ (deltas : List (List Char)) (buffer : List Char) (ending : StreamEnd)
      (evs : List Event) (tr : List (List Message)),
      processTurn sk tg next messages buffer deltas ending = some (evs, tr) →
      Event.error toolLoopExceededMsg ∉ evs := by
  intro deltas
  induction deltas with
  | nil =>
    intro buffer ending evs tr h hc
    cases ending with
    | interrupted =>
      have h2 : (some ([Event.error connectionInterruptedMsg],
          ([] : List (List Message))) : Run) = some (evs, tr) := h
      obtain ⟨h3, -⟩ := Prod.mk.injEq .. ▸ Option.some.inj h2
      rw [← h3] at hc
      simp only [List.mem_singleton, Event.error.injEq] at hc
      exact absurd hc.symm (by decide)
    | doneMark =>
      have h2 : (some ((if buffer = [] then [] else [Event.token buffer]),
          ([] : List (List Message))) : Run) = some (evs, tr) := h
      obtain ⟨h3, -⟩ := Prod.mk.injEq .. ▸ Option.some.inj h2
      rw [← h3] at hc
      by_cases hbuf : buffer = [] <;> simp [hbuf] at hc
    | exhausted =>
      have h2 : (some ((if buffer = [] then [] else [Event.token buffer]),
          ([] : List (List Message))) : Run) = some (evs, tr) := h
      obtain ⟨h3, -⟩ := Prod.mk.injEq .. ▸ Option.some.inj h2
      rw [← h3] at hc
      by_cases hbuf : buffer = [] <;> simp [hbuf] at hc
  | cons d rest ih =>
    intro buffer ending evs tr h hc
    by_cases hd : d = []
    · rw [processTurn, if_pos hd] at h
      exact ih buffer ending evs tr h hc
    · simp only [processTurn, if_neg hd] at h
      split at h
      · -- a complete JSON object was found
        split at h
        · -- jsonLoads failed: token for the literal JSON text
          split at h
          · exact Option.noConfusion h
          · rename_i evs2 tr2 heq2
            obtain ⟨h3, -⟩ := Prod.mk.injEq .. ▸ Option.some.inj h
            rw [← h3] at hc
            rw [List.mem_append] at hc
            rcases hc with hc | hc
            · split at hc <;> simp at hc
            · rcases List.mem_cons.mp hc with hc | hc
              · exact Event.noConfusion hc
              · exact ih _ ending evs2 tr2 heq2 hc
        · -- jsonLoads succeeded: tool path plus recursion
          split at h
          · exact Option.noConfusion h
          · rename_i subEvs subTr hsub
            split at h
            · exact Option.noConfusion h
            · rename_i evs2 tr2 heq2
              obtain ⟨h3, -⟩ := Prod.mk.injEq .. ▸ Option.some.inj h
              rw [← h3] at hc
              rw [List.mem_append] at hc
              rcases hc with hc | hc
              · split at hc <;> simp at hc
              · rcases List.mem_cons.mp hc with hc | hc
                · exact Event.noConfusion hc
                · rcases List.mem_cons.mp hc with hc | hc
                  · exact Event.noConfusion hc
                  · rcases List.mem_append.mp hc with hc | hc
                    · exact hnext _ subEvs subTr hsub hc
                    · exact ih _ ending evs2 tr2 heq2 hc
      · -- no complete JSON: hold, guard-flush, or plain flush
        split at h
        · split at h
          · split at h
            · exact Option.noConfusion h
            · rename_i evs2 tr2 heq2
              obtain ⟨h3, -⟩ := Prod.mk.injEq .. ▸ Option.some.inj h
              rw [← h3] at hc
              rcases List.mem_cons.mp hc with hc | hc
              · exact Event.noConfusion hc
              · exact ih [] ending evs2 tr2 heq2 hc
          · exact ih _ ending evs tr h hc
        · split at h
          · exact Option.noConfusion h
          · rename_i evs2 tr2 heq2
            obtain ⟨h3, -⟩ := Prod.mk.injEq .. ▸ Option.some.inj h
            rw [← h3] at hc
            rcases List.mem_cons.mp hc with hc | hc
            · exact Event.noConfusion hc
            · exact ih [] ending evs2 tr2 heq2 hc

/-- Lifted to whole runs. -/
theorem callInferenceStream_no_toolloop (sk : Option (List Char) → List Char)
    (tg : List Char) (model : List Message → Upstream) :
    ∀ (fuel : Nat) (messages : List Message) (evs : List Event) (tr : List (List Message)),
      callInferenceStream sk tg model fuel messages = some (evs, tr) →
      Event.error toolLoopExceededMsg ∉ evs := by
  intro fuel
  induction fuel with
  | zero => intro ms evs tr h; exact Option.noConfusion h
  | succ f ih =>
    intro ms evs tr h hc
    have h2 : (match model ms with
      | Upstream.httpError status => some ([Event.error (apiErrorMsg status)], [ms])
      | Upstream.ok deltas ending =>
        match processTurn sk tg (callInferenceStream sk tg model f) ms [] deltas ending with
        | none => none
        | some (evs, trace) => some (evs, ms :: trace)) = some (evs, tr) := h
    cases hm : model ms with
    | httpError st =>
      rw [hm] at h2
      obtain ⟨h3, -⟩ := Prod.mk.injEq .. ▸ Option.some.inj h2
      rw [← h3] at hc
      simp only [List.mem_singleton, Event.error.injEq] at hc
      exact apiErrorMsg_ne_toolLoop st hc.symm
    | ok deltas ending =>
      rw [hm] at h2
      have h4 : (match processTurn sk tg (callInferenceStream sk tg model f) ms [] deltas
          ending with
        | none => none
        | some (evs, trace) => some (evs, ms :: trace)) = some (evs, tr) := h2
      split at h4
      · exact Option.noConfusion h4
      · rename_i evs2 trace2 heq
        obtain ⟨h5, -⟩ := Prod.mk.injEq .. ▸ Option.some.inj h4
        rw [← h5] at hc
        exact processTurn_no_toolloop sk tg (callInferenceStream sk tg model f) ih ms
          deltas [] ending evs2 trace2 heq hc

/-! ### Session-layer lemmas -/

theorem chatStream_eq_some (sk : Option (List Char) → List Char) (tg : List Char)
    (model : List Message → Upstream) (fuel : Nat) (store : Option (List Message))
    (userMsg : List Char) (out : ChatOutcome)
    (h : chatStream sk tg model fuel store userMsg = some out) :
    ∃ evs trace,
      callInferenceStream sk tg model fuel (trimmedHistory (historyWithUser store userMsg)) =
        some (evs, trace) ∧ out = chatOutcomeOf store userMsg evs trace := by
  unfold chatStream at h
  split at h
  · exact Option.noConfusion h
  · rename_i evs trace heq
    exact ⟨evs, trace, heq, (Option.some.inj h).symm⟩

theorem trimmedHistory_cons (m : Message) (l : List Message) :
    ∃ l2, trimmedHistory (m :: l) = m :: l2 := by
  unfold trimmedHistory
  by_cases h : 9 < (m :: l).length
  · rw [if_pos h]
    refine ⟨(m :: l).drop ((m :: l).length - 8), ?_⟩
    rw [List.take_succ_cons, List.take_zero]
    rfl
  · rw [if_neg h]
    exact ⟨l, rfl⟩

/-- C8: index 0 of a conversation is always the system prompt — a
session is seeded with it on first access; the user append, the
assistant append, and context trimming (`[history[0]] + history[-8:]`
when the history exceeds 9 entries) all keep it at index 0. -/
theorem c8_system_always_index_zero (sk : Option (List Char) → List Char) (tg : List Char)
    (model : List Message → Upstream) (fuel : Nat) (store : Option (List Message))
    (userMsg : List Char) (out : ChatOutcome)
    (hstore : ∀ l, store = some l → l.head? = some systemMessage)
    (hrun : chatStream sk tg model fuel store userMsg = some out) :
    (getSession store).head? = some systemMessage ∧
    out.sent.head? = some systemMessage ∧
    out.stored.head? = some systemMessage ∧
    out.finalLocal.head? = some systemMessage := by
  have hsess : (getSession store).head? = some systemMessage := by
    cases store with
    | none => rfl
    | some l => exact hstore l rfl
  obtain ⟨t0, ht0⟩ : ∃ t0, getSession store = systemMessage :: t0 := by
    cases hgs : getSession store with
    | nil => rw [hgs] at hsess; exact Option.noConfusion hsess
    | cons a t =>
      rw [hgs] at hsess
      have ha := Option.some.inj hsess
      exact ⟨t, by rw [ha]⟩
  have hh1 : historyWithUser store userMsg =
      systemMessage :: (t0 ++ [⟨roleUser, userMsg⟩]) := by
    unfold historyWithUser
    rw [ht0]
    rfl
  obtain ⟨l2, hl2⟩ := trimmedHistory_cons systemMessage (t0 ++ [⟨roleUser, userMsg⟩])
  obtain ⟨evs, trace, hcall, hout⟩ := chatStream_eq_some sk tg model fuel store userMsg out hrun
  have hfl : (finalLocalOf store userMsg evs).head? = some systemMessage := by
    unfold finalLocalOf
    by_cases hc : fullTextOf evs ≠ [] ∧ stripStartsWithBrace (fullTextOf evs) = false
    · rw [if_pos hc, hh1, hl2]
      rfl
    · rw [if_neg hc, hh1, hl2]
      rfl
  subst hout
  refine ⟨hsess, ?_, ?_, hfl⟩
  · show (trimmedHistory (historyWithUser store userMsg)).head? = some systemMessage
    rw [hh1, hl2]
    rfl
  · show (if 9 < (historyWithUser store userMsg).length then historyWithUser store userMsg
      else finalLocalOf store userMsg evs).head? = some systemMessage
    by_cases h9 : 9 < (historyWithUser store userMsg).length
    · rw [if_pos h9, hh1]
      rfl
    · rw [if_neg h9]
      exact hfl

/-- C10: when the post-append history exceeds 9 entries, the trimming
rebinds a request-local variable only — the stored `SESSIONS` entry
keeps every entry (it grows by exactly the user message), and the
assistant append of that request reaches only the trimmed local copy. -/
theorem c10_trim_rebinds_local_only (sk : Option (List Char) → List Char) (tg : List Char)
    (model : List Message → Upstream) (fuel : Nat) (store : Option (List Message))
    (userMsg : List Char) (out : ChatOutcome)
    (hlen : 9 < (historyWithUser store userMsg).length)
    (hrun : chatStream sk tg model fuel store userMsg = some out) :
    out.stored = historyWithUser store userMsg ∧
    out.stored.length = (getSession store).length + 1 ∧
    out.sent = trimmedHistory (historyWithUser store userMsg) ∧
    (out.finalLocal = out.sent ∨
      ∃ ft, ft ≠ [] ∧ out.finalLocal = out.sent ++ [⟨roleAssistant, ft⟩]) := by
  obtain ⟨evs, trace, hcall, hout⟩ := chatStream_eq_some sk tg model fuel store userMsg out hrun
  subst hout
  have hstored : (chatOutcomeOf store userMsg evs trace).stored =
      historyWithUser store userMsg := by
    show (if 9 < (historyWithUser store userMsg).length then historyWithUser store userMsg
      else finalLocalOf store userMsg evs) = historyWithUser store userMsg
    rw [if_pos hlen]
  refine ⟨hstored, ?_, rfl, ?_⟩
  · rw [hstored]
    unfold historyWithUser
    rw [List.length_append]
    rfl
  · by_cases hc : fullTextOf evs ≠ [] ∧ stripStartsWithBrace (fullTextOf evs) = false
    · right
      refine ⟨fullTextOf evs, hc.1, ?_⟩
      show finalLocalOf store userMsg evs =
        trimmedHistory (historyWithUser store userMsg) ++ [⟨roleAssistant, fullTextOf evs⟩]
      unfold finalLocalOf
      rw [if_pos hc]
    · left
      show finalLocalOf store userMsg evs = trimmedHistory (historyWithUser store userMsg)
      unfold finalLocalOf
      rw [if_neg hc]

/-- C9 (amended form): on upstream failure before any content — a
non-200 status, or an exception with no deltas — the turn emits
exactly one `error` event, makes exactly one upstream call (no retry),
the user message is persisted, and no assistant content is persisted
(the stored history equals the history right after the user append). -/
theorem c9_upstream_failure_one_error_no_retry (sk : Option (List Char) → List Char)
    (tg : List Char) (model : List Message → Upstream) (fuel : Nat)
    (store : Option (List Message)) (userMsg : List Char) (out : ChatOutcome) (st : Nat)
    (hrun : chatStream sk tg model fuel store userMsg = some out) :
    (model (trimmedHistory (historyWithUser store userMsg)) = Upstream.httpError st →
      out.events = [Event.ping, Event.error (apiErrorMsg st), Event.done] ∧
      out.trace = [trimmedHistory (historyWithUser store userMsg)] ∧
      out.stored = historyWithUser store userMsg ∧
      out.finalLocal = trimmedHistory (historyWithUser store userMsg)) ∧
    (model (trimmedHistory (historyWithUser store userMsg)) =
        Upstream.ok [] StreamEnd.interrupted →
      out.events = [Event.ping, Event.error connectionInterruptedMsg, Event.done] ∧
      out.trace = [trimmedHistory (historyWithUser store userMsg)] ∧
      out.stored = historyWithUser store userMsg ∧
      out.finalLocal = trimmedHistory (historyWithUser store userMsg)) := by
  obtain ⟨evs, trace, hcall, hout⟩ := chatStream_eq_some sk tg model fuel store userMsg out hrun
  cases fuel with
  | zero => exact Option.noConfusion hcall
  | succ f =>
    constructor
    · intro hm
      have hcall2 : (match model (trimmedHistory (historyWithUser store userMsg)) with
        | Upstream.httpError status => some ([Event.error (apiErrorMsg status)],
            [trimmedHistory (historyWithUser store userMsg)])
        | Upstream.ok ds ending =>
          match processTurn sk tg (callInferenceStream sk tg model f)
              (trimmedHistory (historyWithUser store userMsg)) [] ds ending with
          | none => none
          | some (evs, trace) =>
            some (evs, trimmedHistory (historyWithUser store userMsg) :: trace)) =
          some (evs, trace) := hcall
      rw [hm] at hcall2
      obtain ⟨hevs, htr⟩ := Prod.mk.injEq .. ▸ Option.some.inj hcall2
      subst hout
      have hft : fullTextOf evs = [] := by rw [← hevs]; rfl
      have hstored : (chatOutcomeOf store userMsg evs trace).stored =
          historyWithUser store userMsg := by
        show (if 9 < (historyWithUser store userMsg).length then historyWithUser store userMsg
          else finalLocalOf store userMsg evs) = historyWithUser store userMsg
        by_cases h9 : 9 < (historyWithUser store userMsg).length
        · rw [if_pos h9]
        · rw [if_neg h9]
          unfold finalLocalOf
          rw [if_neg (by simp [hft])]
          unfold trimmedHistory
          rw [if_neg h9]
      have hfl : (chatOutcomeOf store userMsg evs trace).finalLocal =
          trimmedHistory (historyWithUser store userMsg) := by
        show finalLocalOf store userMsg evs = _
        unfold finalLocalOf
        rw [if_neg (by simp [hft])]
      refine ⟨?_, ?_, hstored, hfl⟩
      · show Event.ping :: (evs ++ [Event.done]) = _
        rw [← hevs]
        rfl
      · show trace = _
        rw [← htr]
    · intro hm
      have hcall2 : (match model (trimmedHistory (historyWithUser store userMsg)) with
        | Upstream.httpError status => some ([Event.error (apiErrorMsg status)],
            [trimmedHistory (historyWithUser store userMsg)])
        | Upstream.ok ds ending =>
          match processTurn sk tg (callInferenceStream sk tg model f)
              (trimmedHistory (historyWithUser store userMsg)) [] ds ending with
          | none => none
          | some (evs, trace) =>
            some (evs, trimmedHistory (historyWithUser store userMsg) :: trace)) =
          some (evs, trace) := hcall
      rw [hm] at hcall2
      have hcall3 : (some ([Event.error connectionInterruptedMsg],
          [trimmedHistory (historyWithUser store userMsg)]) : Run) = some (evs, trace) := hcall2
      obtain ⟨hevs, htr⟩ := Prod.mk.injEq .. ▸ Option.some.inj hcall3
      subst hout
      have hft : fullTextOf evs = [] := by rw [← hevs]; rfl
      have hstored : (chatOutcomeOf store userMsg evs trace).stored =
          historyWithUser store userMsg := by
        show (if 9 < (historyWithUser store userMsg).length then historyWithUser store userMsg
          else finalLocalOf store userMsg evs) = historyWithUser store userMsg
        by_cases h9 : 9 < (historyWithUser store userMsg).length
        · rw [if_pos h9]
        · rw [if_neg h9]
          unfold finalLocalOf
          rw [if_neg (by simp [hft])]
          unfold trimmedHistory
          rw [if_neg h9]
      have hfl : (chatOutcomeOf store userMsg evs trace).finalLocal =
          trimmedHistory (historyWithUser store userMsg) := by
        show finalLocalOf store userMsg evs = _
        unfold finalLocalOf
        rw [if_neg (by simp [hft])]
      refine ⟨?_, ?_, hstored, hfl⟩
      · show Event.ping :: (evs ++ [Event.done]) = _
        rw [← hevs]
        rfl
      · show trace = _
        rw [← htr]

/-! ### The detection branch of the delta loop, in closed form -/

/-- Unfolding of `processTurn` on a delta whose arrival completes a
JSON detection: flush the text before the object, then branch on the
parse; the text after the object becomes the new buffer in both
branches, and the tool branch runs `tool_start`/tool/`tool_end` and the
recursive follow-up turn before resuming. -/
theorem processTurn_detect (sk : Option (List Char) → List Char) (tg : List Char)
    (next : List Message → Run) (messages : List Message)
    (buffer delta : List Char) (rest : List (List Char)) (ending : StreamEnd)
    (js : List Char) (sidx eidx : Nat)
    (hd : delta ≠ [])
    (hfind : findCompleteJson (buffer ++ delta) = some (js, sidx, eidx)) :
    processTurn sk tg next messages buffer (delta :: rest) ending =
      (match jsonLoads js with
       | none =>
         match processTurn sk tg next messages ((buffer ++ delta).drop eidx) rest ending with
         | none => none
         | some (evs, tr) =>
           some ((if (buffer ++ delta).take sidx = [] then []
             else [Event.token ((buffer ++ delta).take sidx)]) ++ Event.token js :: evs, tr)
       | some obj =>
         match next (messages ++ [⟨roleAssistant, js⟩, ⟨roleUser,
             toolResultTag ++ runTool sk tg (dictGet obj keyTool) (dictGet obj keyQuery)⟩]) with
         | none => none
         | some (subEvs, subTr) =>
           match processTurn sk tg next messages ((buffer ++ delta).drop eidx) rest ending with
           | none => none
           | some (evs, tr) =>
             some ((if (buffer ++ delta).take sidx = [] then []
               else [Event.token ((buffer ++ delta).take sidx)]) ++
               Event.toolStart (dictGet obj keyTool) (dictGet obj keyQuery) :: Event.toolEnd ::
               (subEvs ++ evs), subTr ++ tr)) := by
  simp only [processTurn, if_neg hd]
  rw [hfind]

/-! ### Claim theorems: C1 to C4 -/

/-- C1 (code-bug exhibit): the upstream output is the single
well-formed tool-call object `{"tool":"get_info","query":"\"}"}`, yet
the handler emits two `token` events leaking the whole text and no
`tool_start`/`tool_end` — the escape branch of `_find_complete_json`
compares the one-character `ch` against the two-character literal
`'\\\\'` and so never fires, making the scanner cut the object at the
escaped quote. -/
theorem c1_escaped_toolcall_leaks :
    callInferenceStream skStub tgStub modelEscapedTool 2 [systemMessage] =
      some ([Event.token escLeakA, Event.token escLeakB], [[systemMessage]]) ∧
    [Event.token escLeakA, Event.token escLeakB].filter isToolEvent = [] ∧
    [Event.token escLeakA, Event.token escLeakB].filter isTokenEvent ≠ [] := by
  refine ⟨rfl, rfl, by decide⟩

/-- C2 (amended): the orchestrator has no maximum-turn guard: against a
model that always answers with a tool call it completes for no
recursion budget (every turn starts a deeper one), and no run ever
emits `error "tool loop exceeded"` — the only error contents the code
can produce are `"API Error <status>"` and `"Connection
interrupted."`. -/
theorem c2_no_max_turn_guard :
    (∀ (sk : Option (List Char) → List Char) (tg : List Char) (fuel : Nat)
      (messages : List Message),
      callInferenceStream sk tg alwaysToolModel fuel messages = none) ∧
    (∀ (sk : Option (List Char) → List Char) (tg : List Char)
      (model : List Message → Upstream) (fuel : Nat) (messages : List Message)
      (evs : List Event) (tr : List (List Message)),
      callInferenceStream sk tg model fuel messages = some (evs, tr) →
      Event.error toolLoopExceededMsg ∉ evs) :=
  ⟨fun sk tg => callInferenceStream_alwaysTool_none sk tg,
   fun sk tg model => callInferenceStream_no_toolloop sk tg model⟩

/-- C2 counterexample to the claim as stated: after 10 turns against
the always-tool-calling model the orchestrator is still recursing —
it has not stopped at any configured turn bound, and no
`error "tool loop exceeded"` was emitted. -/
theorem c2_counterexample_still_recursing_at_ten :
    callInferenceStream skStub tgStub alwaysToolModel 10 [systemMessage] = none :=
  callInferenceStream_alwaysTool_none skStub tgStub 10 [systemMessage]

/-- C2 witness: the amended theorem evaluated at concrete inputs. -/
theorem c2_witness :
    Event.error toolLoopExceededMsg ∉ [Event.error (apiErrorMsg 500)] :=
  c2_no_max_turn_guard.2 skStub tgStub (fun _ => Upstream.httpError 500) 1
    [systemMessage] [Event.error (apiErrorMsg 500)] [[systemMessage]] rfl

/-- C3 (amended): when the detected JSON fails to parse its literal
text is emitted as a `token`; when it parses, the tool path runs
unconditionally — `tool_start`/`tool_end` are emitted even for an
unregistered tool name, whose execution result is `"Tool not found."`,
and the literal JSON becomes the assistant message of the follow-up
conversation rather than a `token`. -/
theorem c3_parse_failure_token_unknown_tool_runs (sk : Option (List Char) → List Char)
    (tg : List Char) (next : List Message → Run) (messages : List Message)
    (buffer delta : List Char) (rest : List (List Char)) (ending : StreamEnd)
    (js : List Char) (sidx eidx : Nat)
    (hd : delta ≠ [])
    (hfind : findCompleteJson (buffer ++ delta) = some (js, sidx, eidx)) :
    (jsonLoads js = none →
      ∀ evs tr, processTurn sk tg next messages ((buffer ++ delta).drop eidx) rest ending =
          some (evs, tr) →
        processTurn sk tg next messages buffer (delta :: rest) ending =
          some ((if (buffer ++ delta).take sidx = [] then []
            else [Event.token ((buffer ++ delta).take sidx)]) ++ Event.token js :: evs, tr)) ∧
    (∀ obj, jsonLoads js = some obj →
      ∀ subEvs subTr, next (messages ++ [⟨roleAssistant, js⟩, ⟨roleUser,
          toolResultTag ++ runTool sk tg (dictGet obj keyTool) (dictGet obj keyQuery)⟩]) =
          some (subEvs, subTr) →
      ∀ evs tr, processTurn sk tg next messages ((buffer ++ delta).drop eidx) rest ending =
          some (evs, tr) →
        processTurn sk tg next messages buffer (delta :: rest) ending =
          some ((if (buffer ++ delta).take sidx = [] then []
            else [Event.token ((buffer ++ delta).take sidx)]) ++
            Event.toolStart (dictGet obj keyTool) (dictGet obj keyQuery) :: Event.toolEnd ::
            (subEvs ++ evs), subTr ++ tr)) ∧
    (∀ (name : List Char) (q : Option (List Char)),
      name.map Char.toLower ≠ nameGetInfo → name.map Char.toLower ≠ nameGetInfoAlt →
      name.map Char.toLower ≠ nameTgHist → name.map Char.toLower ≠ nameTgUpd →
      name.map Char.toLower ≠ nameTgShort → name.map Char.toLower ≠ nameTgLong →
      runTool sk tg (some name) q = toolNotFoundMsg) := by
  refine ⟨?_, ?_, ?_⟩
  · intro hparse evs tr hrest
    rw [processTurn_detect sk tg next messages buffer delta rest ending js sidx eidx hd hfind,
      hparse, hrest]
  · intro obj hparse subEvs subTr hsub evs tr hrest
    rw [processTurn_detect sk tg next messages buffer delta rest ending js sidx eidx hd hfind,
      hparse]
    show (match next (messages ++ [⟨roleAssistant, js⟩, ⟨roleUser,
        toolResultTag ++ runTool sk tg (dictGet obj keyTool) (dictGet obj keyQuery)⟩]) with
      | none => none
      | some (subEvs, subTr) =>
        match processTurn sk tg next messages ((buffer ++ delta).drop eidx) rest ending with
        | none => none
        | some (evs, tr) =>
          some ((if (buffer ++ delta).take sidx = [] then []
            else [Event.token ((buffer ++ delta).take sidx)]) ++
            Event.toolStart (dictGet obj keyTool) (dictGet obj keyQuery) :: Event.toolEnd ::
            (subEvs ++ evs), subTr ++ tr)) = _
    rw [hsub, hrest]
  · intro name q h1 h2 h3 h4 h5 h6
    simp only [runTool, Option.getD_some]
    rw [if_neg (by rw [not_or]; exact ⟨h1, h2⟩)]
    rw [if_neg (by rw [not_or, not_or, not_or]; exact ⟨h3, h4, h5, h6⟩)]

/-- C3 counterexample to the claim as stated: an unknown tool name
(`nope`) does not degrade to a `token` with the literal JSON — the
handler still emits a `tool_start`/`tool_end` pair, records
`"Tool not found."` as the tool result, and recurses. -/
theorem c3_counterexample_unknown_tool_runs_tool_path :
    callInferenceStream skStub tgStub modelUnknownTool 2 [systemMessage] =
      some ([Event.toolStart (some nameNope) (some queryX), Event.toolEnd, Event.token okText],
        [[systemMessage],
         [systemMessage, ⟨roleAssistant, nopeToolDelta⟩,
          ⟨roleUser, toolResultTag ++ toolNotFoundMsg⟩]]) ∧
    Event.token nopeToolDelta ∉
      [Event.toolStart (some nameNope) (some queryX), Event.toolEnd, Event.token okText] := by
  refine ⟨rfl, by decide⟩

/-- C3 witness: the parse-failure branch at a concrete input — the
brace-balanced but unparsable text `{foo}` is flushed as a token. -/
theorem c3_witness :
    processTurn skStub tgStub nextStub [systemMessage] [] [braceFooDelta]
      StreamEnd.doneMark = some ([Event.token braceFooDelta], []) :=
  (c3_parse_failure_token_unknown_tool_runs skStub tgStub nextStub [systemMessage]
    [] braceFooDelta [] StreamEnd.doneMark braceFooDelta 0 5
    (by decide) rfl).1 rfl [] [] rfl

/-- C4 (amended): after the recursive follow-up turn returns, the
handler resumes the current turn's stream with the text after the JSON
object as the new buffer; at stream end that trailing text is flushed
as a `token` — forwarded to the client, not discarded. -/
theorem c4_trailing_text_forwarded (sk : Option (List Char) → List Char) (tg : List Char)
    (next : List Message → Run) (messages : List Message)
    (buffer delta : List Char) (js : List Char) (sidx eidx : Nat)
    (obj : List (List Char × List Char)) (subEvs : List Event) (subTr : List (List Message))
    (hd : delta ≠ [])
    (hfind : findCompleteJson (buffer ++ delta) = some (js, sidx, eidx))
    (hparse : jsonLoads js = some obj)
    (hnext : next (messages ++ [⟨roleAssistant, js⟩, ⟨roleUser,
        toolResultTag ++ runTool sk tg (dictGet obj keyTool) (dictGet obj keyQuery)⟩]) =
      some (subEvs, subTr))
    (hafter : (buffer ++ delta).drop eidx ≠ []) :
    processTurn sk tg next messages buffer [delta] StreamEnd.doneMark =
      some ((if (buffer ++ delta).take sidx = [] then []
        else [Event.token ((buffer ++ delta).take sidx)]) ++
        Event.toolStart (dictGet obj keyTool) (dictGet obj keyQuery) :: Event.toolEnd ::
        (subEvs ++ [Event.token ((buffer ++ delta).drop eidx)]), subTr) := by
  have hres : processTurn sk tg next messages ((buffer ++ delta).drop eidx) []
      StreamEnd.doneMark = some ([Event.token ((buffer ++ delta).drop eidx)], []) := by
    show (some ((if (buffer ++ delta).drop eidx = [] then []
      else [Event.token ((buffer ++ delta).drop eidx)]), ([] : List (List Message))) : Run) = _
    rw [if_neg hafter]
  rw [processTurn_detect sk tg next messages buffer delta [] StreamEnd.doneMark js sidx eidx
    hd hfind, hparse]
  show (match next (messages ++ [⟨roleAssistant, js⟩, ⟨roleUser,
      toolResultTag ++ runTool sk tg (dictGet obj keyTool) (dictGet obj keyQuery)⟩]) with
    | none => none
    | some (subEvs, subTr) =>
      match processTurn sk tg next messages ((buffer ++ delta).drop eidx) [] StreamEnd.doneMark with
      | none => none
      | some (evs, tr) =>
        some ((if (buffer ++ delta).take sidx = [] then []
          else [Event.token ((buffer ++ delta).take sidx)]) ++
          Event.toolStart (dictGet obj keyTool) (dictGet obj keyQuery) :: Event.toolEnd ::
          (subEvs ++ evs), subTr ++ tr)) = _
  rw [hnext, hres]
  show some ((if (buffer ++ delta).take sidx = [] then []
    else [Event.token ((buffer ++ delta).take sidx)]) ++
    Event.toolStart (dictGet obj keyTool) (dictGet obj keyQuery) :: Event.toolEnd ::
    (subEvs ++ [Event.token ((buffer ++ delta).drop eidx)]), subTr ++ []) = _
  rw [List.append_nil]

/-- C4 counterexample to the claim as stated: text after the JSON
object (` trailing`) is forwarded as a `token` event after the
recursive turn's events — it is not discarded. -/
theorem c4_counterexample_trailing_not_discarded :
    callInferenceStream skStub tgStub modelTrailing 2 [systemMessage] =
      some ([Event.toolStart (some nameGetInfo) (some queryX), Event.toolEnd,
        Event.token replyText, Event.token trailText],
        [[systemMessage],
         [systemMessage, ⟨roleAssistant, toolCallDelta⟩,
          ⟨roleUser, toolResultTag ++ skStub (some queryX)⟩]]) ∧
    Event.token trailText ∈ [Event.toolStart (some nameGetInfo) (some queryX), Event.toolEnd,
      Event.token replyText, Event.token trailText] := by
  refine ⟨rfl, by decide⟩

/-- C4 witness: the amended theorem at a concrete input. -/
theorem c4_witness :
    processTurn skStub tgStub nextReply [systemMessage] [] [trailDelta]
      StreamEnd.doneMark =
      some ([Event.toolStart (some nameGetInfo) (some queryX), Event.toolEnd,
        Event.token replyText, Event.token trailText], []) :=
  c4_trailing_text_forwarded skStub tgStub nextReply [systemMessage] [] trailDelta
    toolCallDelta 0 31 [(keyTool, nameGetInfo), (keyQuery, queryX)]
    [Event.token replyText] [] (by decide) rfl rfl rfl (by decide)

/-! ### Witnesses for the session-layer and flushing claims -/

/-- C5 witness: brace-free deltas are forwarded verbatim (the empty
delta is skipped). -/
theorem c5_witness :
    callInferenceStream skStub tgStub modelPlain 1 [systemMessage] =
      some ((plainDeltas.filter (fun d => !List.isEmpty d)).map Event.token,
        [[systemMessage]]) :=
  (c5_no_brace_passthrough skStub tgStub modelPlain 1 [systemMessage] plainDeltas
    StreamEnd.doneMark (by decide) rfl (by decide) (by decide)).1

/-- Scanning the letter `a` never closes an object nor changes the
verdict flag. -/
theorem scanStep_a_not_fin (st : ScanSt) : (scanStep st 'a').2 = false := by
  unfold scanStep
  by_cases h : st.inStr
  · rw [if_pos h]
    by_cases he : st.escape
    · rw [if_pos he]
    · rw [if_neg he]
      rw [if_neg (by decide : ¬ chIsPyQuadBackslash 'a' = true)]
      rw [if_neg (by decide : ¬ ('a' = '"'))]
  · rw [if_neg h]
    rw [if_neg (by decide : ¬ ('a' = '"'))]
    rw [if_neg (by decide : ¬ ('a' = braceChar))]
    rw [if_neg (by decide : ¬ ('a' = closeBraceChar))]

theorem findFrom_replicate_a : ∀ (n i : Nat) (st : ScanSt),
    findFrom (List.replicate n 'a') i st = none := by
  intro n
  induction n with
  | zero => intro i st; rfl
  | succ m ih =>
    intro i st
    rw [List.replicate_succ, findFrom]
    rw [if_neg (by simp [scanStep_a_not_fin st])]
    exact ih (i + 1) _

theorem findCompleteJson_eq_none_of_findFrom_none {s : List Char} {a : Nat}
    (hidx : s.findIdx? (fun c => c = braceChar) = some a)
    (hff : findFrom (s.drop a) a ⟨0, false, false⟩ = none) :
    findCompleteJson s = none := by
  unfold findCompleteJson
  rw [hidx]
  show (match findFrom (s.drop a) a ⟨0, false, false⟩ with
    | none => none
    | some i => some ((s.drop a).take (i + 1 - a), a, i + 1)) = none
  rw [hff]

/-- The over-guard buffer never resolves to a complete object. -/
theorem findCompleteJson_bigDelta : findCompleteJson ([] ++ bigDelta) = none := by
  rw [List.nil_append]
  refine findCompleteJson_eq_none_of_findFrom_none (a := 0) ?_ ?_
  · unfold bigDelta
    rw [List.findIdx?_cons]
    rw [if_pos (by decide)]
  · rw [List.drop_zero]
    unfold bigDelta
    rw [findFrom]
    rw [if_neg (by decide)]
    exact findFrom_replicate_a 2060 1 _

theorem bigDelta_length : 2048 < ([] ++ bigDelta).length := by
  rw [List.nil_append]
  unfold bigDelta
  rw [List.length_cons, List.length_replicate]
  omega

theorem bigDelta_has_brace : braceChar ∈ [] ++ bigDelta := by
  rw [List.nil_append]
  unfold bigDelta
  exact List.mem_cons_self _ _

/-- C7 witness: the guard flush at a 2061-character unterminated-brace
buffer, and the end-of-stream flush of a residual buffer. -/
theorem c7_witness :
    processTurn skStub tgStub nextStub [systemMessage] [] [bigDelta] StreamEnd.doneMark =
      (processTurn skStub tgStub nextStub [systemMessage] [] [] StreamEnd.doneMark).map
        (fun p => (Event.token ([] ++ bigDelta) :: p.1, p.2)) ∧
    processTurn skStub tgStub nextStub [systemMessage] flushBuf [] StreamEnd.doneMark =
      some ([Event.token flushBuf], []) :=
  ⟨(c7_guard_and_end_flush skStub tgStub nextStub [systemMessage]).1 [] bigDelta []
      StreamEnd.doneMark (by unfold bigDelta; exact List.cons_ne_nil _ _)
      findCompleteJson_bigDelta bigDelta_has_brace bigDelta_length,
   ((c7_guard_and_end_flush skStub tgStub nextStub [systemMessage]).2 flushBuf
      (by decide)).1⟩

/-- C8 witness: a fresh session, one request. -/
theorem c8_witness :
    (getSession none).head? = some systemMessage ∧
    (chatOutcomeOf none hiMsg [] [[systemMessage, ⟨roleUser, hiMsg⟩]]).sent.head? =
      some systemMessage ∧
    (chatOutcomeOf none hiMsg [] [[systemMessage, ⟨roleUser, hiMsg⟩]]).stored.head? =
      some systemMessage ∧
    (chatOutcomeOf none hiMsg [] [[systemMessage, ⟨roleUser, hiMsg⟩]]).finalLocal.head? =
      some systemMessage :=
  c8_system_always_index_zero skStub tgStub modelSilent 1 none hiMsg
    (chatOutcomeOf none hiMsg [] [[systemMessage, ⟨roleUser, hiMsg⟩]])
    (fun _ hl => Option.noConfusion hl) rfl

/-- C9 witness: a non-200 upstream status at a concrete input — one
error event, one upstream call, user message persisted, no assistant
content. -/
theorem c9_witness :
    (chatOutcomeOf none hiMsg [Event.error (apiErrorMsg 500)]
        [trimmedHistory (historyWithUser none hiMsg)]).events =
      [Event.ping, Event.error (apiErrorMsg 500), Event.done] ∧
    (chatOutcomeOf none hiMsg [Event.error (apiErrorMsg 500)]
        [trimmedHistory (historyWithUser none hiMsg)]).trace =
      [trimmedHistory (historyWithUser none hiMsg)] ∧
    (chatOutcomeOf none hiMsg [Event.error (apiErrorMsg 500)]
        [trimmedHistory (historyWithUser none hiMsg)]).stored =
      historyWithUser none hiMsg ∧
    (chatOutcomeOf none hiMsg [Event.error (apiErrorMsg 500)]
        [trimmedHistory (historyWithUser none hiMsg)]).finalLocal =
      trimmedHistory (historyWithUser none hiMsg) :=
  (c9_upstream_failure_one_error_no_retry skStub tgStub (fun _ => Upstream.httpError 500)
    1 none hiMsg
    (chatOutcomeOf none hiMsg [Event.error (apiErrorMsg 500)]
      [trimmedHistory (historyWithUser none hiMsg)]) 500 rfl).1 rfl

/-- C9 counterexample to the claim as stated: the upstream dies after
streaming `Hello`; one error event is emitted, but the partial
assistant text `Hello` IS persisted into the stored session history. -/
theorem c9_counterexample_partial_content_persisted :
    chatStream skStub tgStub modelPartialFail 1 none hiMsg =
      some ⟨[Event.ping, Event.token helloText, Event.error connectionInterruptedMsg,
          Event.done],
        [systemMessage, ⟨roleUser, hiMsg⟩, ⟨roleAssistant, helloText⟩],
        [systemMessage, ⟨roleUser, hiMsg⟩, ⟨roleAssistant, helloText⟩],
        [systemMessage, ⟨roleUser, hiMsg⟩],
        [[systemMessage, ⟨roleUser, hiMsg⟩]]⟩ ∧
    [systemMessage, ⟨roleUser, hiMsg⟩, ⟨roleAssistant, helloText⟩] ≠
      historyWithUser none hiMsg := by
  refine ⟨rfl, fun h => ?_⟩
  have hlen := congrArg List.length h
  simp [historyWithUser, getSession] at hlen

/-- C10 witness: a 9-entry stored session plus a user message crosses
the threshold; the stored entry keeps all 10 entries. -/
theorem c10_witness :
    (chatOutcomeOf (some storeW) hiMsg [Event.token helloText]
        [trimmedHistory (historyWithUser (some storeW) hiMsg)]).stored =
      historyWithUser (some storeW) hiMsg :=
  (c10_trim_rebinds_local_only skStub tgStub modelHello 1 (some storeW) hiMsg
    (chatOutcomeOf (some storeW) hiMsg [Event.token helloText]
      [trimmedHistory (historyWithUser (some storeW) hiMsg)])
    (by decide) rfl).1

end KustSupport
